import Mathlib

/-!
Shallow embedding of the serializer in src/ser.rs (rhymu8354/Serialization).

Modelling conventions:
* Bytes are natural numbers (every emitted byte is proved or evaluable < 256);
  the output buffer is a list of bytes.  Every serializer method of the Rust
  code only appends to the shared buffer, so each method is embedded as the
  pure list of bytes it appends.
* usize / u64 values are naturals (theorems carry the bound v < 2^64 where the
  64-bit width matters); i64 values are integers carried with their range
  bounds.  Bit operations on them use explicit 64-bit masks.
* The Rust while-loops shift their working value right by 7 bits per
  iteration, so they run at most 10 iterations on 64-bit inputs.  They are
  embedded with a structural fuel parameter, instantiated with 64 units of
  fuel, which the correctness lemmas prove is never exhausted for v < 2^64.
* The integer serializer methods always return Ok(()), so their Result
  wrapper is dropped; serialize_seq / serialize_map, which can fail, keep an
  Except wrapper.
* Strings are embedded as their UTF-8 byte lists (a Rust &str is exactly
  that; its len() is the UTF-8 byte count).
* f32 / f64 values are embedded by the raw bit pattern word that the unsafe
  pointer cast in serialize_f32 / serialize_f64 reads; the byte-emission
  loops below that cast are embedded faithfully.
-/

/-- Modelled from the spec: the crate's error type (the Error and Result items
come from the crate root, which is not among the given sources).  Spec section
7 names two cases: Length-required, raised when a sequence or mapping has no
declared count, and an upstream/custom failure carrying a message. -/
inductive Error where
  | lengthRequired : Error
  | custom (message : String) : Error
  deriving DecidableEq

/-- The stack-filling loop of Serializer::serialize_usize (ser.rs 27-35):
while v has bits above the low 7 (on 64-bit usize, v & !0x7F is
v &&& 0xFFFFFFFFFFFFFF80), push the low 7 bits and shift right by 7, breaking
early if the shifted value is zero.  The stack is kept most-recent-push-first.
The structural fuel parameter bounds the iteration count; 64 units are far
more than the at most 10 iterations a 64-bit value needs, and the
fuel-exhaustion branch is unreachable for v < 2^64 (proved below). -/
def usize_push_loop : Nat → Nat → List Nat → List Nat × Nat
  | 0, v, stack => (stack, v)
  | fuel + 1, v, stack =>
      if v &&& 0xFFFFFFFFFFFFFF80 ≠ 0 then
        let stack' := ((v &&& 0x7F) % 256) :: stack
        let v' := v >>> 7
        if v' = 0 then (stack', v') else usize_push_loop fuel v' stack'
      else (stack, v)

/-- The drain loop shared by serialize_usize (ser.rs 42-48) and serialize_i64
(ser.rs 124-130): pop the stack front to back, setting the continuation bit
0x80 on every popped byte except the last. -/
def drain_stack : List Nat → List Nat
  | [] => []
  | [b] => [b]
  | b :: rest => (b ||| 0x80) :: drain_stack rest

/-- Serializer::serialize_usize (ser.rs 23-49): run the push loop, then emit
the remaining value as the leading byte - with the continuation bit set iff
the stack is nonempty - and drain the stack after it. -/
def serialize_usize (v : Nat) : List Nat :=
  let p := usize_push_loop 64 v []
  let more := if p.1.isEmpty then 0x00 else 0x80
  ((p.2 % 256) ||| more) :: drain_stack p.1

/-- Two's-complement wrapping negation at width 64: what Rust's release-mode
unary minus computes on an i64.  It equals mathematical negation for every
i64 value except i64::MIN, where the negation overflows and wraps back to
i64::MIN. -/
def wrapping_neg_i64 (v : Int) : Int :=
  (-v + 2 ^ 63) % 2 ^ 64 - 2 ^ 63

/-- Reinterpretation of an i64 value as u64 (Rust: x as u64), i.e. the value
modulo 2^64. -/
def u64_of_i64 (x : Int) : Nat :=
  (x % 2 ^ 64).toNat

/-- The sign flag chosen by serialize_i64 (ser.rs 104-108): 0x00 for v >= 0,
0x40 for v < 0. -/
def i64_sign (v : Int) : Nat :=
  if 0 ≤ v then 0x00 else 0x40

/-- The magnitude computed by serialize_i64 (ser.rs 104-108):
v as u64 when v >= 0, and (-v) as u64 otherwise, where the negation is the
i64 wrapping negation performed before the cast. -/
def i64_magnitude (v : Int) : Nat :=
  if 0 ≤ v then u64_of_i64 v else u64_of_i64 (wrapping_neg_i64 v)

/-- The stack-filling loop of serialize_i64 (ser.rs 109-117): the guard keeps
looping while the magnitude has bits above the low 6 (abs & !0x3F, i.e.
abs &&& 0xFFFFFFFFFFFFFFC0, is nonzero), but each iteration still pushes a
full 7-bit group and shifts by 7, breaking early when the shifted magnitude
reaches zero.  Fuel as in usize_push_loop. -/
def i64_push_loop : Nat → Nat → List Nat → List Nat × Nat
  | 0, a, stack => (stack, a)
  | fuel + 1, a, stack =>
      if a &&& 0xFFFFFFFFFFFFFFC0 ≠ 0 then
        let stack' := ((a &&& 0x7F) % 256) :: stack
        let a' := a >>> 7
        if a' = 0 then (stack', a') else i64_push_loop fuel a' stack'
      else (stack, a)

/-- serialize_i64 (ser.rs 100-132): split v into sign flag and magnitude, run
the push loop on the magnitude, emit the leading byte (remaining magnitude,
or-ed with the sign flag and, if continuation bytes follow, with 0x80), then
drain the stack. -/
def serialize_i64 (v : Int) : List Nat :=
  let p := i64_push_loop 64 (i64_magnitude v) []
  let more := if p.1.isEmpty then 0x00 else 0x80
  ((p.2 % 256) ||| i64_sign v ||| more) :: drain_stack p.1

/-- serialize_i16 (ser.rs 84-89): widen to i64 (exact on integers) and
delegate. -/
def serialize_i16 (v : Int) : List Nat :=
  serialize_i64 v

/-- serialize_i32 (ser.rs 91-96): widen to i64 and delegate. -/
def serialize_i32 (v : Int) : List Nat :=
  serialize_i64 v

/-- serialize_u64 (ser.rs 157-163): v as usize (identity on a 64-bit target),
then serialize_usize. -/
def serialize_u64 (v : Nat) : List Nat :=
  serialize_usize v

/-- serialize_u16 (ser.rs 142-147): widen to u64 (exact on naturals) and
delegate. -/
def serialize_u16 (v : Nat) : List Nat :=
  serialize_u64 v

/-- serialize_u32 (ser.rs 149-154): widen to u64 and delegate. -/
def serialize_u32 (v : Nat) : List Nat :=
  serialize_u64 v

/-- serialize_u8 (ser.rs 134-140): push the byte itself; the variable-length
codec is not used. -/
def serialize_u8 (v : Nat) : List Nat :=
  [v]

/-- serialize_i8 (ser.rs 75-82): push v as u8, the value's two's-complement
bit pattern (v mod 256); the variable-length codec is not used. -/
def serialize_i8 (v : Int) : List Nat :=
  [(v % 256).toNat]

/-- serialize_bool (ser.rs 63-73): one byte, 1 for true and 0 for false. -/
def serialize_bool (v : Bool) : List Nat :=
  [if v then 1 else 0]

/-- serialize_f32 (ser.rs 165-175): after reading the value's bit pattern as
a u32 word, emit its 4 bytes most-significant first. -/
def serialize_f32 (bits : Nat) : List Nat :=
  (List.range 4).reverse.map fun i => (bits >>> (i * 8)) &&& 0xFF

/-- serialize_f64 (ser.rs 177-187): after reading the value's bit pattern as
a u64 word, emit its 8 bytes most-significant first. -/
def serialize_f64 (bits : Nat) : List Nat :=
  (List.range 8).reverse.map fun i => (bits >>> (i * 8)) &&& 0xFF

/-- serialize_char (ser.rs 189-197): extend the buffer with the character's
UTF-8 bytes, no length information.  The character is embedded as that byte
list. -/
def serialize_char (utf8 : List Nat) : List Nat :=
  utf8

/-- serialize_str (ser.rs 199-207): unsigned-encode v.len() - the UTF-8 byte
count, since a Rust &str is its UTF-8 bytes - then extend with the bytes
verbatim. -/
def serialize_str (utf8 : List Nat) : List Nat :=
  serialize_usize utf8.length ++ utf8

/-- serialize_bytes (ser.rs 209-216): unsigned-encode the byte count, then
extend with the bytes verbatim. -/
def serialize_bytes (v : List Nat) : List Nat :=
  serialize_usize v.length ++ v

/-- serialize_none (ser.rs 218-221): the single byte 0x00. -/
def serialize_none : List Nat :=
  [0x00]

/-- serialize_some (ser.rs 223-232): the byte 0x01 followed by the inner
value's encoding. -/
def serialize_some (inner : List Nat) : List Nat :=
  0x01 :: inner

/-- serialize_unit (ser.rs 234-236): no bytes. -/
def serialize_unit : List Nat :=
  []

/-- serialize_unit_struct (ser.rs 238-243): no bytes. -/
def serialize_unit_struct : List Nat :=
  []

/-- serialize_unit_variant (ser.rs 245-252): unsigned-encode the u32 variant
index. -/
def serialize_unit_variant (variant_index : Nat) : List Nat :=
  serialize_u32 variant_index

/-- serialize_newtype_struct (ser.rs 254-263): just the inner value's
encoding. -/
def serialize_newtype_struct (inner : List Nat) : List Nat :=
  inner

/-- serialize_newtype_variant (ser.rs 265-277): the variant index as usize
through serialize_usize, then the payload's encoding. -/
def serialize_newtype_variant (variant_index : Nat) (inner : List Nat) : List Nat :=
  serialize_usize variant_index ++ inner

/-- serialize_seq (ser.rs 279-287): with no declared length fail with
Error::LengthRequired; otherwise unsigned-encode the element count (the
elements are appended afterwards by the SerializeSeq impl). -/
def serialize_seq (len : Option Nat) : Except Error (List Nat) :=
  len.elim (.error .lengthRequired) fun size => .ok (serialize_usize size)

/-- serialize_map (ser.rs 318-326): with no declared length fail with
Error::LengthRequired; otherwise unsigned-encode the pair count. -/
def serialize_map (len : Option Nat) : Except Error (List Nat) :=
  len.elim (.error .lengthRequired) fun size => .ok (serialize_usize size)

/-- serialize_tuple (ser.rs 289-294): no count is written; the elements
follow. -/
def serialize_tuple : List Nat :=
  []

/-- serialize_tuple_struct (ser.rs 296-302): no count is written. -/
def serialize_tuple_struct : List Nat :=
  []

/-- serialize_tuple_variant (ser.rs 304-316): unsigned-encode the u32 variant
index; the fields follow with no count. -/
def serialize_tuple_variant (variant_index : Nat) : List Nat :=
  serialize_u32 variant_index

/-- serialize_struct (ser.rs 328-334): no count is written. -/
def serialize_struct : List Nat :=
  []

/-- serialize_struct_variant (ser.rs 336-348): unsigned-encode the u32
variant index; the field values follow with no count. -/
def serialize_struct_variant (variant_index : Nat) : List Nat :=
  serialize_u32 variant_index

/-- A whole sequence encoding as serde drives it: serialize_seq writes the
count, then SerializeSeq::serialize_element (ser.rs 380-397) appends each
element's encoding in iteration order, and end appends nothing. -/
def encode_seq (len : Option Nat) (elements : List (List Nat)) : Except Error (List Nat) :=
  (serialize_seq len).map fun out => out ++ elements.flatten

/-- A whole map encoding as serde drives it: serialize_map writes the pair
count, then SerializeMap::serialize_key / serialize_value (ser.rs 351-378)
append each key's then each value's encoding per pair in iteration order. -/
def encode_map (len : Option Nat) (pairs : List (List Nat × List Nat)) :
    Except Error (List Nat) :=
  (serialize_map len).map fun out => out ++ (pairs.map fun kv => kv.1 ++ kv.2).flatten

/-- A whole tuple-variant encoding: the discriminant, then each field's
encoding in declared order (SerializeTupleVariant, ser.rs 477-494), with no
count. -/
def encode_tuple_variant (variant_index : Nat) (fields : List (List Nat)) : List Nat :=
  serialize_tuple_variant variant_index ++ fields.flatten

/-- A whole struct-variant encoding: the discriminant, then each field
value's encoding in declared order (SerializeStructVariant, ser.rs 419-437),
with no count. -/
def encode_struct_variant (variant_index : Nat) (fields : List (List Nat)) : List Nat :=
  serialize_struct_variant variant_index ++ fields.flatten

/-- Reconstruction of an unsigned varint's magnitude as the claims read it:
7 magnitude bits per byte, concatenated most-significant-group first. -/
def decode_mag7 : List Nat → Nat → Nat
  | [], acc => acc
  | b :: rest, acc => decode_mag7 rest (acc * 128 + (b &&& 0x7F))

/-- Reconstruction of a signed varint's magnitude: 6 magnitude bits from the
leading byte, then 7 bits per continuation byte, most-significant group
first. -/
def decode_smag : List Nat → Nat
  | [] => 0
  | b :: rest => decode_mag7 rest (b &&& 0x3F)

/-- Base-128 digits of v, most significant first; always nonempty ([0] for
v = 0).  Proof-side characterization of what serialize_usize emits. -/
def udigits (v : Nat) : List Nat :=
  if v < 128 then [v] else udigits (v / 128) ++ [v % 128]
termination_by v
decreasing_by
  exact Nat.div_lt_self (by omega) (by omega)

/-- Magnitude digits of a signed varint: a leading digit below 64 followed by
base-128 digits, most significant first; always nonempty ([0] for 0).
Proof-side characterization of what serialize_i64 emits. -/
def sdigits (a : Nat) : List Nat :=
  if a < 64 then [a] else sdigits (a / 128) ++ [a % 128]
termination_by a
decreasing_by
  exact Nat.div_lt_self (by omega) (by omega)

theorem and_hi7_eq_zero_of_low : ∀ v < 128, v &&& 0xFFFFFFFFFFFFFF80 = 0 := by
  decide

theorem and_hi6_eq_zero_of_low : ∀ a < 64, a &&& 0xFFFFFFFFFFFFFFC0 = 0 := by
  decide

theorem cont_byte_facts : ∀ b < 128,
    b &&& 0x7F = b ∧ (b ||| 0x80) &&& 0x7F = b ∧ b &&& 0x80 = 0 ∧
    (b ||| 0x80) &&& 0x80 = 0x80 := by
  decide

theorem lead_byte_facts : ∀ t < 64,
    t &&& 0x3F = t ∧ (t ||| 0x80) &&& 0x3F = t ∧ (t ||| 0x40) &&& 0x3F = t ∧
    (t ||| 0x40 ||| 0x80) &&& 0x3F = t ∧ t &&& 0x40 = 0 ∧
    (t ||| 0x80) &&& 0x40 = 0 ∧ (t ||| 0x40) &&& 0x40 = 0x40 ∧
    (t ||| 0x40 ||| 0x80) &&& 0x40 = 0x40 := by
  decide

theorem and_hi7_eq_zero_iff {v : Nat} (hv : v < 2 ^ 64) :
    v &&& 0xFFFFFFFFFFFFFF80 = 0 ↔ v < 128 := by
  constructor
  · intro h
    have h1 : v &&& ((0xFFFFFFFFFFFFFF80 : Nat) ||| 0x7F) = v := by
      have he : ((0xFFFFFFFFFFFFFF80 : Nat) ||| 0x7F) = 2 ^ 64 - 1 := by decide
      rw [he, Nat.and_pow_two_sub_one_eq_mod, Nat.mod_eq_of_lt hv]
    have h2 : v &&& ((0xFFFFFFFFFFFFFF80 : Nat) ||| 0x7F) =
        v &&& 0xFFFFFFFFFFFFFF80 ||| v &&& 0x7F := Nat.and_or_distrib_left v _ _
    rw [h, Nat.zero_or] at h2
    have h3 : v &&& 0x7F ≤ 0x7F := Nat.and_le_right
    omega
  · exact and_hi7_eq_zero_of_low v

theorem and_hi6_eq_zero_iff {a : Nat} (ha : a < 2 ^ 64) :
    a &&& 0xFFFFFFFFFFFFFFC0 = 0 ↔ a < 64 := by
  constructor
  · intro h
    have h1 : a &&& ((0xFFFFFFFFFFFFFFC0 : Nat) ||| 0x3F) = a := by
      have he : ((0xFFFFFFFFFFFFFFC0 : Nat) ||| 0x3F) = 2 ^ 64 - 1 := by decide
      rw [he, Nat.and_pow_two_sub_one_eq_mod, Nat.mod_eq_of_lt ha]
    have h2 : a &&& ((0xFFFFFFFFFFFFFFC0 : Nat) ||| 0x3F) =
        a &&& 0xFFFFFFFFFFFFFFC0 ||| a &&& 0x3F := Nat.and_or_distrib_left a _ _
    rw [h, Nat.zero_or] at h2
    have h3 : a &&& 0x3F ≤ 0x3F := Nat.and_le_right
    omega
  · exact and_hi6_eq_zero_of_low a

theorem drop_one_append {α : Type} (l m : List α) (h : l ≠ []) :
    (l ++ m).drop 1 = l.drop 1 ++ m := by
  cases l with
  | nil => exact absurd rfl h
  | cons a t => simp

theorem headD_append {α : Type} (l m : List α) (d : α) (h : l ≠ []) :
    (l ++ m).headD d = l.headD d := by
  cases l with
  | nil => exact absurd rfl h
  | cons a t => simp

theorem headD_cons_drop {α : Type} (l : List α) (d : α) (h : l ≠ []) :
    l.headD d :: l.drop 1 = l := by
  cases l with
  | nil => exact absurd rfl h
  | cons a t => rfl

theorem udigits_ne_nil (v : Nat) : udigits v ≠ [] := by
  unfold udigits
  split <;> simp

theorem sdigits_ne_nil (a : Nat) : sdigits a ≠ [] := by
  unfold sdigits
  split <;> simp

theorem udigits_all_lt (v : Nat) : ∀ b ∈ udigits v, b < 128 := by
  induction v using Nat.strong_induction_on with
  | _ v ih =>
    unfold udigits
    split
    · next h => intro b hb; simp at hb; omega
    · next h =>
      intro b hb
      rw [List.mem_append] at hb
      rcases hb with hb | hb
      · exact ih (v / 128) (Nat.div_lt_self (by omega) (by omega)) b hb
      · simp at hb; omega

theorem sdigits_drop_lt (a : Nat) : ∀ b ∈ (sdigits a).drop 1, b < 128 := by
  induction a using Nat.strong_induction_on with
  | _ a ih =>
    unfold sdigits
    split
    · next h => intro b hb; simp at hb
    · next h =>
      rw [drop_one_append _ _ (sdigits_ne_nil _)]
      intro b hb
      rw [List.mem_append] at hb
      rcases hb with hb | hb
      · exact ih (a / 128) (Nat.div_lt_self (by omega) (by omega)) b hb
      · simp at hb; omega

theorem udigits_headD_lt (v : Nat) : (udigits v).headD 0 < 128 := by
  induction v using Nat.strong_induction_on with
  | _ v ih =>
    unfold udigits
    split
    · next h => simpa using h
    · next h =>
      rw [headD_append _ _ _ (udigits_ne_nil _)]
      exact ih (v / 128) (Nat.div_lt_self (by omega) (by omega))

theorem sdigits_headD_lt (a : Nat) : (sdigits a).headD 0 < 64 := by
  induction a using Nat.strong_induction_on with
  | _ a ih =>
    unfold sdigits
    split
    · next h => simpa using h
    · next h =>
      rw [headD_append _ _ _ (sdigits_ne_nil _)]
      exact ih (a / 128) (Nat.div_lt_self (by omega) (by omega))

theorem udigits_foldl (v : Nat) :
    ∀ acc, (udigits v).foldl (fun acc b => acc * 128 + b) acc =
      acc * 128 ^ (udigits v).length + v := by
  induction v using Nat.strong_induction_on with
  | _ v ih =>
    intro acc
    unfold udigits
    split
    · next h => simp
    · next h =>
      rw [List.foldl_append, ih (v / 128) (Nat.div_lt_self (by omega) (by omega)) acc]
      simp only [List.foldl, List.length_append, List.length_singleton]
      calc (acc * 128 ^ (udigits (v / 128)).length + v / 128) * 128 + v % 128
          = acc * (128 ^ (udigits (v / 128)).length * 128) + (v / 128 * 128 + v % 128) := by
            ring
        _ = acc * 128 ^ ((udigits (v / 128)).length + 1) + v := by
            rw [← pow_succ]; omega

theorem sdigits_foldl (a : Nat) :
    ∀ acc, (sdigits a).foldl (fun acc b => acc * 128 + b) acc =
      acc * 128 ^ (sdigits a).length + a := by
  induction a using Nat.strong_induction_on with
  | _ a ih =>
    intro acc
    unfold sdigits
    split
    · next h => simp
    · next h =>
      rw [List.foldl_append, ih (a / 128) (Nat.div_lt_self (by omega) (by omega)) acc]
      simp only [List.foldl, List.length_append, List.length_singleton]
      calc (acc * 128 ^ (sdigits (a / 128)).length + a / 128) * 128 + a % 128
          = acc * (128 ^ (sdigits (a / 128)).length * 128) + (a / 128 * 128 + a % 128) := by
            ring
        _ = acc * 128 ^ ((sdigits (a / 128)).length + 1) + a := by
            rw [← pow_succ]; omega

theorem usize_push_loop_succ (fuel v : Nat) (stack : List Nat) :
    usize_push_loop (fuel + 1) v stack =
      if v &&& 0xFFFFFFFFFFFFFF80 ≠ 0 then
        (if v >>> 7 = 0 then (((v &&& 0x7F) % 256) :: stack, v >>> 7)
         else usize_push_loop fuel (v >>> 7) (((v &&& 0x7F) % 256) :: stack))
      else (stack, v) := rfl

theorem i64_push_loop_succ (fuel a : Nat) (stack : List Nat) :
    i64_push_loop (fuel + 1) a stack =
      if a &&& 0xFFFFFFFFFFFFFFC0 ≠ 0 then
        (if a >>> 7 = 0 then (((a &&& 0x7F) % 256) :: stack, a >>> 7)
         else i64_push_loop fuel (a >>> 7) (((a &&& 0x7F) % 256) :: stack))
      else (stack, a) := rfl

theorem and_0x7F_eq (v : Nat) : (v &&& 0x7F) % 256 = v % 128 := by
  have h := Nat.and_pow_two_sub_one_eq_mod v 7
  norm_num at h
  rw [h, Nat.mod_eq_of_lt (by omega : v % 128 < 256)]

theorem shiftRight7_eq (v : Nat) : v >>> 7 = v / 128 := by
  rw [Nat.shiftRight_eq_div_pow]

theorem usize_push_loop_spec :
    ∀ (fuel v : Nat) (stack : List Nat), v < 2 ^ (7 * fuel) → v < 2 ^ 64 →
    usize_push_loop fuel v stack =
      ((udigits v).drop 1 ++ stack, (udigits v).headD 0) := by
  intro fuel
  induction fuel with
  | zero =>
    intro v stack h1 _
    have hv0 : v = 0 := by simpa using h1
    subst hv0
    simp [usize_push_loop, udigits]
  | succ fuel ih =>
    intro v stack h1 hv
    rw [usize_push_loop_succ]
    by_cases hc : v &&& 0xFFFFFFFFFFFFFF80 ≠ 0
    · have h128 : 128 ≤ v := by
        rcases Nat.lt_or_ge v 128 with h | h
        · exact absurd (and_hi7_eq_zero_of_low v h) hc
        · exact h
      have hne : ¬v >>> 7 = 0 := by rw [shiftRight7_eq]; omega
      rw [if_pos hc, if_neg hne, and_0x7F_eq, shiftRight7_eq]
      have harg2 : v / 128 < 2 ^ (7 * fuel) := by
        have hp : (2 : Nat) ^ (7 * (fuel + 1)) = 2 ^ (7 * fuel) * 128 := by
          rw [show 7 * (fuel + 1) = 7 * fuel + 7 by ring, pow_add]
          norm_num
        rw [hp] at h1
        exact (Nat.div_lt_iff_lt_mul (by omega)).mpr h1
      have hlt64 : v / 128 < 2 ^ 64 := lt_of_le_of_lt (Nat.div_le_self v 128) hv
      rw [ih (v / 128) (v % 128 :: stack) harg2 hlt64]
      have hud : udigits v = udigits (v / 128) ++ [v % 128] := by
        rw [udigits.eq_def]
        rw [if_neg (by omega : ¬v < 128)]
      rw [hud, drop_one_append _ _ (udigits_ne_nil _),
        headD_append _ _ _ (udigits_ne_nil _)]
      simp
    · rw [if_neg hc]
      push_neg at hc
      have hlt : v < 128 := (and_hi7_eq_zero_iff hv).mp hc
      have hud : udigits v = [v] := by
        rw [udigits.eq_def, if_pos hlt]
      rw [hud]
      simp

theorem i64_push_loop_spec :
    ∀ (fuel a : Nat) (stack : List Nat), a < 2 ^ (7 * fuel) → a < 2 ^ 64 →
    i64_push_loop fuel a stack =
      ((sdigits a).drop 1 ++ stack, (sdigits a).headD 0) := by
  intro fuel
  induction fuel with
  | zero =>
    intro a stack h1 _
    have ha0 : a = 0 := by simpa using h1
    subst ha0
    simp [i64_push_loop, sdigits]
  | succ fuel ih =>
    intro a stack h1 ha
    rw [i64_push_loop_succ]
    by_cases hc : a &&& 0xFFFFFFFFFFFFFFC0 ≠ 0
    · have h64 : 64 ≤ a := by
        rcases Nat.lt_or_ge a 64 with h | h
        · exact absurd (and_hi6_eq_zero_of_low a h) hc
        · exact h
      rw [if_pos hc, and_0x7F_eq, shiftRight7_eq]
      have hud : sdigits a = sdigits (a / 128) ++ [a % 128] := by
        rw [sdigits.eq_def]
        rw [if_neg (by omega : ¬a < 64)]
      by_cases hz : a / 128 = 0
      · rw [if_pos hz, hud, hz]
        rw [show sdigits 0 = [0] from by rw [sdigits.eq_def]; rfl]
        simp
      · rw [if_neg hz]
        have harg2 : a / 128 < 2 ^ (7 * fuel) := by
          have hp : (2 : Nat) ^ (7 * (fuel + 1)) = 2 ^ (7 * fuel) * 128 := by
            rw [show 7 * (fuel + 1) = 7 * fuel + 7 by ring, pow_add]
            norm_num
          rw [hp] at h1
          exact (Nat.div_lt_iff_lt_mul (by omega)).mpr h1
        have hlt64 : a / 128 < 2 ^ 64 := lt_of_le_of_lt (Nat.div_le_self a 128) ha
        rw [ih (a / 128) (a % 128 :: stack) harg2 hlt64]
        rw [hud, drop_one_append _ _ (sdigits_ne_nil _),
          headD_append _ _ _ (sdigits_ne_nil _)]
        simp
    · rw [if_neg hc]
      push_neg at hc
      have hlt : a < 64 := (and_hi6_eq_zero_iff ha).mp hc
      have hud : sdigits a = [a] := by
        rw [sdigits.eq_def, if_pos hlt]
      rw [hud]
      simp

theorem serialize_usize_eq_drain (v : Nat) (hv : v < 2 ^ 64) :
    serialize_usize v = drain_stack (udigits v) := by
  unfold serialize_usize
  rw [usize_push_loop_spec 64 v []
    (lt_of_lt_of_le hv (Nat.pow_le_pow_right (by omega) (by omega))) hv]
  rcases hud : udigits v with _ | ⟨a, l⟩
  · exact absurd hud (udigits_ne_nil v)
  · have ha : a < 128 := by
      have h := udigits_headD_lt v
      rw [hud] at h
      simpa using h
    cases l with
    | nil =>
      simp [drain_stack, Nat.mod_eq_of_lt (show a < 256 by omega)]
    | cons b t =>
      simp [drain_stack, Nat.mod_eq_of_lt (show a < 256 by omega)]

theorem i64_magnitude_lt (v : Int) : i64_magnitude v < 2 ^ 64 := by
  unfold i64_magnitude u64_of_i64 wrapping_neg_i64
  split <;> omega

theorem i64_magnitude_eq_natAbs (v : Int) (h1 : -(2 ^ 63) ≤ v) (h2 : v < 2 ^ 63) :
    i64_magnitude v = v.natAbs := by
  unfold i64_magnitude u64_of_i64 wrapping_neg_i64
  split <;> omega

theorem serialize_i64_eq_drain (v : Int) :
    serialize_i64 v =
      drain_stack (((sdigits (i64_magnitude v)).headD 0 ||| i64_sign v) ::
        (sdigits (i64_magnitude v)).drop 1) := by
  have hm : i64_magnitude v < 2 ^ 64 := i64_magnitude_lt v
  unfold serialize_i64
  rw [i64_push_loop_spec 64 _ []
    (lt_of_lt_of_le hm (Nat.pow_le_pow_right (by omega) (by omega))) hm]
  rcases hud : sdigits (i64_magnitude v) with _ | ⟨a, l⟩
  · exact absurd hud (sdigits_ne_nil _)
  · have ha : a < 64 := by
      have h := sdigits_headD_lt (i64_magnitude v)
      rw [hud] at h
      simpa using h
    cases l with
    | nil =>
      simp [drain_stack, Nat.mod_eq_of_lt (show a < 256 by omega), Nat.or_zero]
    | cons b t =>
      simp [drain_stack, Nat.mod_eq_of_lt (show a < 256 by omega)]

theorem decode_mag7_drain (l : List Nat) :
    (∀ b ∈ l, b < 128) → ∀ acc,
      decode_mag7 (drain_stack l) acc = l.foldl (fun acc b => acc * 128 + b) acc := by
  induction l with
  | nil => intro _ acc; rfl
  | cons b t ih =>
    intro hall acc
    cases t with
    | nil =>
      have hb : b < 128 := hall b (by simp)
      simp [drain_stack, decode_mag7, (cont_byte_facts b hb).1]
    | cons c t2 =>
      have hb : b < 128 := hall b (by simp)
      have hstep : decode_mag7 (drain_stack (b :: c :: t2)) acc =
          decode_mag7 (drain_stack (c :: t2)) (acc * 128 + b) := by
        simp [drain_stack, decode_mag7, (cont_byte_facts b hb).2.1]
      rw [hstep, ih (fun x hx => hall x (by simp [hx])) (acc * 128 + b)]
      rfl

theorem drain_stack_split (l : List Nat) :
    l ≠ [] → (∀ b ∈ l, b < 128) →
    ∃ front final, drain_stack l = front ++ [final] ∧
      (∀ b ∈ front, b &&& 0x80 = 0x80) ∧ final &&& 0x80 = 0 := by
  induction l with
  | nil => intro h _; exact absurd rfl h
  | cons b t ih =>
    intro _ hall
    cases t with
    | nil =>
      have hb : b < 128 := hall b (by simp)
      exact ⟨[], b, rfl, by simp, (cont_byte_facts b hb).2.2.1⟩
    | cons c t2 =>
      obtain ⟨fr, la, heq, hfr, hla⟩ := ih (by simp) (fun x hx => hall x (by simp [hx]))
      have hb : b < 128 := hall b (by simp)
      refine ⟨(b ||| 0x80) :: fr, la, ?_, ?_, hla⟩
      · simp [drain_stack, heq]
      · intro x hx
        rcases List.mem_cons.mp hx with rfl | hx
        · exact (cont_byte_facts b hb).2.2.2
        · exact hfr x hx

theorem drain_stack_cons_headD (x : Nat) (xs : List Nat) :
    (drain_stack (x :: xs)).headD 0 = if xs.isEmpty then x else x ||| 0x80 := by
  cases xs <;> rfl

theorem foldl_step_cons (t : Nat) (rest : List Nat) :
    (t :: rest).foldl (fun acc b => acc * 128 + b) 0 =
      rest.foldl (fun acc b => acc * 128 + b) t := by
  simp [List.foldl]

theorem decode_smag_drain_lead (t : Nat) (ht : t < 64) (sg : Nat)
    (hsg : sg = 0 ∨ sg = 0x40) (rest : List Nat) (hrest : ∀ b ∈ rest, b < 128) :
    decode_smag (drain_stack ((t ||| sg) :: rest)) =
      rest.foldl (fun acc b => acc * 128 + b) t := by
  obtain ⟨hf1, hf2, hf3, hf4, _, _, _, _⟩ := lead_byte_facts t ht
  rcases hsg with rfl | rfl
  · cases rest with
    | nil => simp [drain_stack, decode_smag, decode_mag7, Nat.or_zero, hf1]
    | cons c t2 =>
      have hlead : (t ||| 0 ||| 0x80) &&& 0x3F = t := by
        rw [Nat.or_zero]; exact hf2
      simp only [drain_stack, decode_smag, hlead]
      rw [decode_mag7_drain (c :: t2) hrest t]
  · cases rest with
    | nil => simp [drain_stack, decode_smag, decode_mag7, hf3]
    | cons c t2 =>
      simp only [drain_stack, decode_smag, hf4]
      rw [decode_mag7_drain (c :: t2) hrest t]

theorem serialize_usize_decode (v : Nat) (hv : v < 2 ^ 64) :
    decode_mag7 (serialize_usize v) 0 = v := by
  rw [serialize_usize_eq_drain v hv, decode_mag7_drain _ (udigits_all_lt v) 0]
  simpa using udigits_foldl v 0

/-- C1: for every v representable in at most 64 bits, serialize_usize emits a
byte string whose continuation bit 0x80 is set on every byte except the last
and clear on the last, whose 7-bit magnitude groups, read
most-significant-group-first, concatenate back to v, and v = 0 encodes to
exactly the single byte 0x00. -/
theorem C1_unsigned_varint_sound (v : Nat) (hv : v < 2 ^ 64) :
    (∃ front final, serialize_usize v = front ++ [final] ∧
      (∀ b ∈ front, b &&& 0x80 = 0x80) ∧ final &&& 0x80 = 0) ∧
    decode_mag7 (serialize_usize v) 0 = v ∧
    (v = 0 → serialize_usize v = [0x00]) := by
  refine ⟨?_, serialize_usize_decode v hv, ?_⟩
  · rw [serialize_usize_eq_drain v hv]
    exact drain_stack_split _ (udigits_ne_nil v) (udigits_all_lt v)
  · intro h0; subst h0; rfl

/-- Witness for C1 at the concrete input 9001. -/
theorem C1_witness :
    (9001 : Nat) < 2 ^ 64 ∧ decode_mag7 (serialize_usize 9001) 0 = 9001 :=
  ⟨by norm_num, (C1_unsigned_varint_sound 9001 (by norm_num)).2.1⟩

/-- C2: for every 64-bit signed v, the leading byte of serialize_i64 has its
sign bit 0x40 set iff v < 0, the magnitude bits (6 in the leading byte, 7 per
continuation byte, most-significant-group-first) concatenate back to the
absolute value of v, and v = 0 encodes to exactly the single byte 0x00. -/
theorem C2_signed_varint_sound (v : Int) (h1 : -(2 ^ 63) ≤ v) (h2 : v < 2 ^ 63) :
    ((serialize_i64 v).headD 0 &&& 0x40 = 0x40 ↔ v < 0) ∧
    decode_smag (serialize_i64 v) = v.natAbs ∧
    (v = 0 → serialize_i64 v = [0x00]) := by
  have he := serialize_i64_eq_drain v
  have htop := sdigits_headD_lt (i64_magnitude v)
  obtain ⟨hf1, hf2, hf3, hf4, hf5, hf6, hf7, hf8⟩ := lead_byte_facts _ htop
  refine ⟨?_, ?_, ?_⟩
  · rw [he, drain_stack_cons_headD]
    set t := (sdigits (i64_magnitude v)).headD 0 with hT
    by_cases hneg : v < 0
    · have hsg : i64_sign v = 0x40 := by
        unfold i64_sign; rw [if_neg (by omega)]
      rw [hsg]
      split
      · simp [hf7, hneg]
      · simp [hf8, hneg]
    · have hsg : i64_sign v = 0 := by
        unfold i64_sign; rw [if_pos (by omega)]
      rw [hsg, Nat.or_zero]
      split
      · simp [hf5, hneg]
      · simp [hf6, hneg]
  · rw [he, decode_smag_drain_lead _ htop (i64_sign v)
      (by unfold i64_sign; split; exacts [Or.inl rfl, Or.inr rfl])
      _ (sdigits_drop_lt _)]
    rw [← foldl_step_cons, headD_cons_drop _ _ (sdigits_ne_nil _)]
    have h := sdigits_foldl (i64_magnitude v) 0
    simp only [Nat.zero_mul, Nat.zero_add] at h
    rw [h]
    exact i64_magnitude_eq_natAbs v h1 h2
  · intro h0; subst h0; decide

/-- Witness for C2 at the concrete input -9001. -/
theorem C2_witness :
    -(2 ^ 63) ≤ (-9001 : Int) ∧ (-9001 : Int) < 2 ^ 63 ∧
      decode_smag (serialize_i64 (-9001)) = (-9001 : Int).natAbs :=
  ⟨by norm_num, by norm_num, (C2_signed_varint_sound (-9001) (by norm_num) (by norm_num)).2.1⟩

/-- C3 counterexample: an 8-bit value and the 64-bit value holding the same
number do NOT always produce byte-identical output.  serialize_u8 255 pushes
the raw byte 0xFF, while serialize_u64 255 goes through the varint codec and
emits the two bytes 0x81 0x7F, so the claim that every fixed width at most
64 widens to the 64-bit codec fails at width 8. -/
theorem C3_counterexample :
    serialize_u8 255 ≠ serialize_u64 255 ∧
    serialize_u8 255 = [0xFF] ∧ serialize_u64 255 = [0x81, 0x7F] :=
  ⟨by decide, rfl, by decide⟩

/-- C3 amended: for widths 16 and 32 (and trivially 64) the encoding equals
the widened-to-64-bit encoding of the same number with the same signedness,
each width over its full range; width 8 instead bypasses the variable-length
codec and emits the single raw byte, so its output may differ from the wider
widths. -/
theorem C3_amended_widening (v16 : Nat) (h16 : v16 < 2 ^ 16)
    (v32 : Nat) (h32 : v32 < 2 ^ 32)
    (w16 : Int) (hw16a : -(2 ^ 15) ≤ w16) (hw16b : w16 < 2 ^ 15)
    (w32 : Int) (hw32a : -(2 ^ 31) ≤ w32) (hw32b : w32 < 2 ^ 31)
    (b : Nat) (hb : b < 2 ^ 8) :
    serialize_u16 v16 = serialize_u64 v16 ∧
    serialize_u32 v32 = serialize_u64 v32 ∧
    serialize_i16 w16 = serialize_i64 w16 ∧
    serialize_i32 w32 = serialize_i64 w32 ∧
    serialize_u8 b = [b] :=
  ⟨rfl, rfl, rfl, rfl, rfl⟩

/-- Witness for the amended C3 at 9001 (16-bit), 70000 (32-bit), -42 (16-bit)
and -70000 (32-bit). -/
theorem C3_witness :
    serialize_u16 9001 = serialize_u64 9001 ∧
      serialize_u32 70000 = serialize_u64 70000 ∧
      serialize_i16 (-42) = serialize_i64 (-42) ∧
      serialize_i32 (-70000) = serialize_i64 (-70000) :=
  ⟨(C3_amended_widening 9001 (by norm_num) 70000 (by norm_num) (-42) (by norm_num)
      (by norm_num) (-70000) (by norm_num) (by norm_num) 255 (by norm_num)).1,
   (C3_amended_widening 9001 (by norm_num) 70000 (by norm_num) (-42) (by norm_num)
      (by norm_num) (-70000) (by norm_num) (by norm_num) 255 (by norm_num)).2.1,
   (C3_amended_widening 9001 (by norm_num) 70000 (by norm_num) (-42) (by norm_num)
      (by norm_num) (-70000) (by norm_num) (by norm_num) 255 (by norm_num)).2.2.1,
   (C3_amended_widening 9001 (by norm_num) 70000 (by norm_num) (-42) (by norm_num)
      (by norm_num) (-70000) (by norm_num) (by norm_num) 255 (by norm_num)).2.2.2.1⟩

/-- C4 counterexample: at width 64 there is no wider width to widen to, and
the negation serialize_i64 performs on i64::MIN = -2^63 does overflow: the
width-64 (wrapping) negation yields -2^63 again rather than the mathematical
negation 2^63, refuting the claim that the negation never overflows at any
width up to and including 64. -/
theorem C4_counterexample :
    wrapping_neg_i64 (-(2 ^ 63)) = -(2 ^ 63) ∧
    wrapping_neg_i64 (-(2 ^ 63)) ≠ -(-(2 ^ 63) : Int) :=
  ⟨by decide, by decide⟩

/-- C4 amended: for every signed width strictly below 64 the value is widened
to i64 before negation, and the negation of any widened value of magnitude at
most 2^31 (covering the minima of widths 8, 16 and 32) does not overflow; at
width 64 the negation of i64::MIN wraps, but the wrapped value reinterpreted
as u64 still equals the exact absolute value, so the magnitude serialize_i64
encodes equals the exact absolute value for every representable value,
i64::MIN included. -/
theorem C4_amended_magnitude_exact (v : Int) (h1 : -(2 ^ 63) ≤ v) (h2 : v < 2 ^ 63) :
    i64_magnitude v = v.natAbs ∧ (-(2 ^ 31) ≤ v → wrapping_neg_i64 v = -v) := by
  refine ⟨i64_magnitude_eq_natAbs v h1 h2, ?_⟩
  intro h3
  unfold wrapping_neg_i64
  omega

/-- Witness for the amended C4 at i64::MIN and i16::MIN. -/
theorem C4_witness :
    i64_magnitude (-(2 ^ 63)) = (-(2 ^ 63) : Int).natAbs ∧
      wrapping_neg_i64 (-32768) = -(-32768 : Int) :=
  ⟨(C4_amended_magnitude_exact (-(2 ^ 63)) (by norm_num) (by norm_num)).1,
   (C4_amended_magnitude_exact (-32768) (by norm_num) (by norm_num)).2 (by norm_num)⟩

/-- C5: serialize_seq and serialize_map fail with Error::lengthRequired
exactly when no count is supplied, in which case nothing is encoded; with a
declared count n they succeed and the output is the unsigned varint of n
followed by the element encodings (for maps, key then value per pair) in
iteration order. -/
theorem C5_length_required (len : Option Nat) (elements : List (List Nat))
    (pairs : List (List Nat × List Nat)) :
    (serialize_seq len = .error .lengthRequired ↔ len = none) ∧
    (serialize_map len = .error .lengthRequired ↔ len = none) ∧
    encode_seq none elements = .error .lengthRequired ∧
    encode_map none pairs = .error .lengthRequired ∧
    (∀ n, len = some n →
      encode_seq len elements = .ok (serialize_usize n ++ elements.flatten) ∧
      encode_map len pairs =
        .ok (serialize_usize n ++ (pairs.map fun kv => kv.1 ++ kv.2).flatten)) := by
  refine ⟨?_, ?_, rfl, rfl, ?_⟩
  · cases len with
    | none => simp [serialize_seq, Option.elim]
    | some k => simp [serialize_seq, Option.elim]
  · cases len with
    | none => simp [serialize_map, Option.elim]
    | some k => simp [serialize_map, Option.elim]
  · intro n h
    subst h
    exact ⟨rfl, rfl⟩

/-- Witness for C5: an omitted count fails, a declared count of 3 writes the
count byte then the elements. -/
theorem C5_witness :
    encode_seq (some 3) [[97], [98], [99]] =
      .ok (serialize_usize 3 ++ [[97], [98], [99]].flatten) ∧
    serialize_seq none = .error .lengthRequired :=
  ⟨((C5_length_required (some 3) [[97], [98], [99]] []).2.2.2.2 3 rfl).1,
   (C5_length_required none [] []).1.mpr rfl⟩

/-- C6: the concrete encodings listed by the spec, checked against the
embedding of to_bytes (ser.rs 504-511): to_bytes hands the value to the
matching serializer method with an empty buffer, so each vector is the byte
list the corresponding method appends.  The string "Hi" is embedded by its
UTF-8 bytes 0x48 0x69; None-of-unit dispatches to serialize_none, and
Some(42u8) dispatches to serialize_some around serialize_u8. -/
theorem C6_concrete_vectors :
    serialize_bool true = [0x01] ∧
    serialize_i16 (-42) = [0x6A] ∧
    serialize_i16 4000 = [0x9F, 0x20] ∧
    serialize_u16 9001 = [0xC6, 0x29] ∧
    serialize_str [0x48, 0x69] = [0x02, 0x48, 0x69] ∧
    serialize_none = [0x00] ∧
    serialize_some (serialize_u8 42) = [0x01, 0x2A] :=
  ⟨rfl, by decide, by decide, by decide, by decide, rfl, rfl⟩

/-- C7: every tagged-union encoding begins with the unsigned varint of the
variant index (a u32-ranged, never-negative discriminant), followed by the
payload: nothing for a unit case, the single payload for a newtype case, and
the components in declared order without a count for tuple-like and
record-like cases. -/
theorem C7_variant_discriminant (idx : Nat) (hidx : idx < 2 ^ 32)
    (inner : List Nat) (fields : List (List Nat)) :
    serialize_unit_variant idx = serialize_usize idx ∧
    serialize_newtype_variant idx inner = serialize_usize idx ++ inner ∧
    encode_tuple_variant idx fields = serialize_usize idx ++ fields.flatten ∧
    encode_struct_variant idx fields = serialize_usize idx ++ fields.flatten :=
  ⟨rfl, rfl, rfl, rfl⟩

/-- Witness for C7 at index 1 with a one-byte payload. -/
theorem C7_witness :
    serialize_unit_variant 1 = serialize_usize 1 ∧
      serialize_newtype_variant 1 [42] = serialize_usize 1 ++ [42] :=
  ⟨(C7_variant_discriminant 1 (by norm_num) [42] []).1,
   (C7_variant_discriminant 1 (by norm_num) [42] []).2.1⟩

/-- C8: serialize_str and serialize_bytes emit exactly the unsigned varint of
the exact byte count (for strings the UTF-8 byte length: the string is
embedded as its UTF-8 bytes and its Rust len() is that byte count) followed
by the raw bytes verbatim; the emitted length prefix decodes back to the
byte count and the remainder of the output is the bytes themselves. -/
theorem C8_str_bytes_length_prefixed (s bs : List Nat)
    (hs : s.length < 2 ^ 64) (hb : bs.length < 2 ^ 64) :
    serialize_str s = serialize_usize s.length ++ s ∧
    serialize_bytes bs = serialize_usize bs.length ++ bs ∧
    decode_mag7 (serialize_usize s.length) 0 = s.length ∧
    decode_mag7 (serialize_usize bs.length) 0 = bs.length ∧
    (serialize_str s).drop (serialize_usize s.length).length = s := by
  refine ⟨rfl, rfl, serialize_usize_decode _ hs, serialize_usize_decode _ hb, ?_⟩
  exact List.drop_left _ _

/-- Witness for C8 on the bytes of "Hi" and a one-byte blob. -/
theorem C8_witness :
    serialize_str [0x48, 0x69] = serialize_usize 2 ++ [0x48, 0x69] ∧
      decode_mag7 (serialize_usize 2) 0 = 2 :=
  ⟨(C8_str_bytes_length_prefixed [0x48, 0x69] [0] (by norm_num) (by norm_num)).1,
   (C8_str_bytes_length_prefixed [0x48, 0x69] [0] (by norm_num) (by norm_num)).2.2.1⟩

/-- C9: serialize_f32 appends exactly the 4 bytes of the value's raw bit
pattern most-significant-byte-first, and serialize_f64 exactly the 8 bytes of
its pattern most-significant-byte-first, with no varint coding, length prefix
or tag: the output has exactly 4 (resp. 8) bytes, each byte is the
corresponding 8-bit slice of the pattern, and the bytes reassemble to the
pattern in base 256 read most-significant-first.  (The float value is
embedded by the bit-pattern word the unsafe cast in ser.rs 170 / 182
produces; the emission loops are embedded faithfully.) -/
theorem C9_float_big_endian (w : Nat) (hw : w < 2 ^ 32) (d : Nat) (hd : d < 2 ^ 64) :
    serialize_f32 w = [(w >>> 24) &&& 0xFF, (w >>> 16) &&& 0xFF,
      (w >>> 8) &&& 0xFF, w &&& 0xFF] ∧
    (serialize_f32 w).length = 4 ∧
    (serialize_f32 w).foldl (fun acc b => acc * 256 + b) 0 = w ∧
    serialize_f64 d = [(d >>> 56) &&& 0xFF, (d >>> 48) &&& 0xFF,
      (d >>> 40) &&& 0xFF, (d >>> 32) &&& 0xFF, (d >>> 24) &&& 0xFF,
      (d >>> 16) &&& 0xFF, (d >>> 8) &&& 0xFF, d &&& 0xFF] ∧
    (serialize_f64 d).length = 8 ∧
    (serialize_f64 d).foldl (fun acc b => acc * 256 + b) 0 = d := by
  have hand : ∀ x : Nat, x &&& 0xFF = x % 256 := fun x => by
    have h := Nat.and_pow_two_sub_one_eq_mod x 8
    norm_num at h
    exact h
  refine ⟨rfl, rfl, ?_, rfl, rfl, ?_⟩
  · have he : serialize_f32 w = [(w >>> 24) &&& 0xFF, (w >>> 16) &&& 0xFF,
        (w >>> 8) &&& 0xFF, w &&& 0xFF] := rfl
    rw [he]
    simp only [List.foldl]
    simp only [hand, Nat.shiftRight_eq_div_pow]
    norm_num
    omega
  · have he : serialize_f64 d = [(d >>> 56) &&& 0xFF, (d >>> 48) &&& 0xFF,
        (d >>> 40) &&& 0xFF, (d >>> 32) &&& 0xFF, (d >>> 24) &&& 0xFF,
        (d >>> 16) &&& 0xFF, (d >>> 8) &&& 0xFF, d &&& 0xFF] := rfl
    rw [he]
    simp only [List.foldl]
    simp only [hand, Nat.shiftRight_eq_div_pow]
    norm_num
    omega

/-- Witness for C9 at the bit patterns of the crate's own float test vectors
(3.1415925f32 and -10f64). -/
theorem C9_witness :
    (serialize_f32 0x40490FDA).foldl (fun acc b => acc * 256 + b) 0 = 0x40490FDA ∧
      (serialize_f64 0xC024000000000000).length = 8 :=
  ⟨(C9_float_big_endian 0x40490FDA (by norm_num) 0xC024000000000000 (by norm_num)).2.2.1,
   (C9_float_big_endian 0x40490FDA (by norm_num) 0xC024000000000000 (by norm_num)).2.2.2.2.1⟩

/-- C10: serialize_u8 appends the single byte equal to the value itself and
serialize_i8 the single byte of the value's two's-complement pattern (value
mod 256), bypassing the varint codec; consequently 255u8 gives 0xFF while
255u16 gives 0x81 0x7F, and -42i8 gives 0xD6 while -42i16 gives 0x6A, so the
8-bit output differs from the wider widths whenever the raw byte differs from
the varint form. -/
theorem C10_8bit_bypasses_codec (v : Nat) (hv : v < 256) (w : Int)
    (hw1 : -128 ≤ w) (hw2 : w < 128) :
    serialize_u8 v = [v] ∧
    serialize_i8 w = [(w % 256).toNat] ∧
    serialize_u8 255 = [0xFF] ∧ serialize_u16 255 = [0x81, 0x7F] ∧
    serialize_u8 255 ≠ serialize_u16 255 ∧
    serialize_i8 (-42) = [0xD6] ∧ serialize_i16 (-42) = [0x6A] ∧
    serialize_i8 (-42) ≠ serialize_i16 (-42) :=
  ⟨rfl, rfl, rfl, by decide, by decide, by decide, by decide, by decide⟩

/-- Witness for C10 at 255 and -42. -/
theorem C10_witness :
    serialize_u8 255 = [255] ∧ serialize_i8 (-42) = [((-42 : Int) % 256).toNat] :=
  ⟨(C10_8bit_bypasses_codec 255 (by norm_num) (-42) (by norm_num) (by norm_num)).1,
   (C10_8bit_bypasses_codec 255 (by norm_num) (-42) (by norm_num) (by norm_num)).2.1⟩
